import Mathlib

/-!
Verification of the whippyunits dimensional-scale algebra engine and of the
editor-extension helpers that ship with the repository.

The core engine (signatures, coherence checking, conversion, erasure) is
described by the specification but its Rust sources are not part of the file
set; the definitions in the first half of this file are therefore modelled
from the specification text, as their doc comments state.  The second half
embeds the TypeScript helpers of the VS Code extension
(`vscode-extension/src/extension.ts` as included in the test-suite file),
which are present in the sources.  JavaScript strings are modelled as
`List Char`; the numeric values of quantities are modelled exactly as
`q * pi ^ k` pairs (`PiRat`), matching the engine's promise of lossless
log-scale arithmetic.
-/

/-- Modelled from the spec: an exact numeric value of the engine, kept in the
form `rat * pi ^ piExp`.  The spec requires "no accumulated floating error
across chained conversions" and "lossless log-scale arithmetic"; conversion
factors are rationals times an integer power of pi (the angle basis
constant), so this representation is exact for every multiplicative
operation the engine performs. -/
structure PiRat where
  rat : ℚ
  piExp : ℤ
deriving DecidableEq

/-- Product of two exact values; exact because powers of pi multiply by
adding exponents. -/
def PiRat.mul (x y : PiRat) : PiRat :=
  ⟨x.rat * y.rat, x.piExp + y.piExp⟩

/-- Quotient of two exact values. -/
def PiRat.div (x y : PiRat) : PiRat :=
  ⟨x.rat / y.rat, x.piExp - y.piExp⟩

/-- Integer power of an exact value. -/
def PiRat.ipow (x : PiRat) (n : ℤ) : PiRat :=
  ⟨x.rat ^ n, x.piExp * n⟩

/-- Sum of two exact values.  The engine only ever adds the values of two
quantities whose signatures already agree, in which case the two pi
exponents coincide and the sum below is exact. -/
def PiRat.add (x y : PiRat) : PiRat :=
  ⟨x.rat + y.rat, x.piExp⟩

/-- Modelled from the spec: the 8-axis integer exponent vector of a concrete
quantity (mass, length, time, current, temperature, amount, luminosity,
angle).  Unbound sentinel axes occur only in generic patterns, never in a
constructed Quantity, so they are not part of this model. -/
structure DimensionSignature where
  mass : ℤ
  length : ℤ
  time : ℤ
  current : ℤ
  temperature : ℤ
  amount : ℤ
  luminosity : ℤ
  angle : ℤ
deriving DecidableEq

/-- Axis-wise sum of dimension exponent vectors (the multiply rule). -/
def DimensionSignature.add (a b : DimensionSignature) : DimensionSignature :=
  ⟨a.mass + b.mass, a.length + b.length, a.time + b.time, a.current + b.current,
   a.temperature + b.temperature, a.amount + b.amount,
   a.luminosity + b.luminosity, a.angle + b.angle⟩

/-- Axis-wise difference of dimension exponent vectors (the divide rule). -/
def DimensionSignature.sub (a b : DimensionSignature) : DimensionSignature :=
  ⟨a.mass - b.mass, a.length - b.length, a.time - b.time, a.current - b.current,
   a.temperature - b.temperature, a.amount - b.amount,
   a.luminosity - b.luminosity, a.angle - b.angle⟩

/-- Axis-wise scalar multiple of a dimension exponent vector (the power
rule). -/
def DimensionSignature.smul (n : ℤ) (a : DimensionSignature) : DimensionSignature :=
  ⟨n * a.mass, n * a.length, n * a.time, n * a.current,
   n * a.temperature, n * a.amount, n * a.luminosity, n * a.angle⟩

/-- The all-zero (dimensionless) dimension signature. -/
def dimZero : DimensionSignature := ⟨0, 0, 0, 0, 0, 0, 0, 0⟩

/-- Modelled from the spec: the exponent vector over the scale basis
{2, 3, 5, 10, pi} giving the exact ratio of the storage unit to the
canonical base unit of the dimension. -/
structure ScaleSignature where
  e2 : ℤ
  e3 : ℤ
  e5 : ℤ
  e10 : ℤ
  epi : ℤ
deriving DecidableEq

/-- Axis-wise sum of scale exponent vectors. -/
def ScaleSignature.add (a b : ScaleSignature) : ScaleSignature :=
  ⟨a.e2 + b.e2, a.e3 + b.e3, a.e5 + b.e5, a.e10 + b.e10, a.epi + b.epi⟩

/-- Axis-wise difference of scale exponent vectors. -/
def ScaleSignature.sub (a b : ScaleSignature) : ScaleSignature :=
  ⟨a.e2 - b.e2, a.e3 - b.e3, a.e5 - b.e5, a.e10 - b.e10, a.epi - b.epi⟩

/-- Axis-wise scalar multiple of a scale exponent vector. -/
def ScaleSignature.smul (n : ℤ) (a : ScaleSignature) : ScaleSignature :=
  ⟨n * a.e2, n * a.e3, n * a.e5, n * a.e10, n * a.epi⟩

/-- The all-zero scale signature (unity: storage unit equals the canonical
base unit; for angle the canonical base is the radian). -/
def scaleZero : ScaleSignature := ⟨0, 0, 0, 0, 0⟩

/-- Modelled from the spec: bound on dimension exponents.  The hover docs
show the unbound sentinel stored as the maximum i64, so the representable
range of a bound exponent lies strictly below it in absolute value. -/
def dimExpBound : ℤ := 9223372036854775807

/-- Modelled from the spec: bound on scale exponents.  The hover docs show
the unused sentinel stored as 32767, so bound exponents lie strictly below
it in absolute value. -/
def scaleExpBound : ℤ := 32767

/-- A dimension signature is representable when every axis exponent is in
range. -/
def DimensionSignature.inBounds (d : DimensionSignature) : Prop :=
  |d.mass| < dimExpBound ∧ |d.length| < dimExpBound ∧ |d.time| < dimExpBound ∧
  |d.current| < dimExpBound ∧ |d.temperature| < dimExpBound ∧
  |d.amount| < dimExpBound ∧ |d.luminosity| < dimExpBound ∧ |d.angle| < dimExpBound

instance (d : DimensionSignature) : Decidable d.inBounds := by
  unfold DimensionSignature.inBounds
  infer_instance

/-- A scale signature is representable when every basis exponent is in
range. -/
def ScaleSignature.inBounds (s : ScaleSignature) : Prop :=
  |s.e2| < scaleExpBound ∧ |s.e3| < scaleExpBound ∧ |s.e5| < scaleExpBound ∧
  |s.e10| < scaleExpBound ∧ |s.epi| < scaleExpBound

instance (s : ScaleSignature) : Decidable s.inBounds := by
  unfold ScaleSignature.inBounds
  infer_instance

/-- Modelled from the spec: the typed failure taxonomy of the engine. -/
inductive QError where
  | DimensionMismatch
  | ScaleIncoherence
  | PrecisionLoss
  | AffineCombinationInvalid
  | Overflow
deriving DecidableEq

/-- Modelled from the spec: the optional (additive offset, reference scale)
pair carried by affine units. -/
structure AffineOffset where
  offset : ℚ
  ref : ScaleSignature
deriving DecidableEq

/-- Modelled from the spec: an immutable quantity — exact numeric value,
dimension signature, scale signature, and optional affine offset. -/
structure Quantity where
  value : PiRat
  dim : DimensionSignature
  scale : ScaleSignature
  affine : Option AffineOffset
deriving DecidableEq

/-- Modelled from the spec: multiplication of quantities.  Any operand
carrying an AffineOffset is rejected with AffineCombinationInvalid;
otherwise dimension and scale exponents add axis-wise, with an Overflow
failure if a result exponent leaves the representable range. -/
def Quantity.mul (q1 q2 : Quantity) : Except QError Quantity :=
  if q1.affine.isSome || q2.affine.isSome then
    .error .AffineCombinationInvalid
  else if (q1.dim.add q2.dim).inBounds ∧ (q1.scale.add q2.scale).inBounds then
    .ok ⟨q1.value.mul q2.value, q1.dim.add q2.dim, q1.scale.add q2.scale, none⟩
  else
    .error .Overflow

/-- Modelled from the spec: division of quantities.  Affine operands are
rejected; otherwise dimension and scale exponents subtract axis-wise, with
an Overflow failure if a result exponent leaves the representable range. -/
def Quantity.div (q1 q2 : Quantity) : Except QError Quantity :=
  if q1.affine.isSome || q2.affine.isSome then
    .error .AffineCombinationInvalid
  else if (q1.dim.sub q2.dim).inBounds ∧ (q1.scale.sub q2.scale).inBounds then
    .ok ⟨q1.value.div q2.value, q1.dim.sub q2.dim, q1.scale.sub q2.scale, none⟩
  else
    .error .Overflow

/-- Modelled from the spec: integer power of a quantity.  Both signatures
are scalar-multiplied axis-wise by the exponent.  Power is iterated
multiplication, so the affine rejection applies; fractional powers are
outside this model (only integer exponents are represented, so the
non-integer-axis rejection cannot trigger). -/
def Quantity.qpow (q : Quantity) (n : ℤ) : Except QError Quantity :=
  if q.affine.isSome then
    .error .AffineCombinationInvalid
  else if (DimensionSignature.smul n q.dim).inBounds ∧ (ScaleSignature.smul n q.scale).inBounds then
    .ok ⟨q.value.ipow n, DimensionSignature.smul n q.dim, ScaleSignature.smul n q.scale, none⟩
  else
    .error .Overflow

/-- Modelled from the spec: addition under the strict (default) policy.
Unequal dimensions fail DimensionMismatch.  With equal dimensions, two
linear operands require exactly equal scale signatures (else
ScaleIncoherence) and the result preserves both signatures; a linear
operand added to an affine one yields an affine result carrying the affine
operand's offset; two affine operands cannot be added
(AffineCombinationInvalid).  The left-hand-wins / largest-wins /
smallest-wins reconciliation policies are not modelled — no claim refers to
them. -/
def addStrict (q1 q2 : Quantity) : Except QError Quantity :=
  if q1.dim = q2.dim then
    match q1.affine, q2.affine with
    | none, none =>
        if q1.scale = q2.scale then
          .ok ⟨q1.value.add q2.value, q1.dim, q1.scale, none⟩
        else .error .ScaleIncoherence
    | some a, none =>
        if q1.scale = q2.scale then
          .ok ⟨q1.value.add q2.value, q1.dim, q1.scale, some a⟩
        else .error .ScaleIncoherence
    | none, some a =>
        if q1.scale = q2.scale then
          .ok ⟨q1.value.add q2.value, q2.dim, q2.scale, some a⟩
        else .error .ScaleIncoherence
    | some _, some _ => .error .AffineCombinationInvalid
  else .error .DimensionMismatch

/-- Modelled from the spec: the rational part of the multiple a scale
signature denotes, `2^e2 * 3^e3 * 5^e5 * 10^e10`. -/
def ScaleSignature.ratFactor (s : ScaleSignature) : ℚ :=
  (2 : ℚ) ^ s.e2 * (3 : ℚ) ^ s.e3 * (5 : ℚ) ^ s.e5 * (10 : ℚ) ^ s.e10

/-- Modelled from the spec: the full exact multiple a scale signature
denotes relative to unity, including the pi component. -/
def scaleFactorPi (s : ScaleSignature) : PiRat :=
  ⟨s.ratFactor, s.epi⟩

/-- Modelled from the spec: the exact conversion factor between two scale
signatures of one dimension (per-basis exponent deltas; the table-lookup
realization of each per-exponent constant is a performance detail with the
same exact value). -/
def conversionFactor (s t : ScaleSignature) : PiRat :=
  ⟨s.ratFactor / t.ratFactor, s.epi - t.epi⟩

/-- Modelled from the spec: rescaling a quantity to a target scale of its
own dimension — the value is multiplied by the exact conversion factor and
the scale signature replaced; dimension and affine offset (which carries
its own reference scale) are untouched. -/
def rescale (q : Quantity) (t : ScaleSignature) : Quantity :=
  ⟨q.value.mul (conversionFactor q.scale t), q.dim, t, q.affine⟩

/-- Modelled from the spec: rescaling for integer-valued storage.  The
conversion must be exact: a pi-component delta or a non-integer converted
value fails PrecisionLoss (the explicit lossy truncating opt-in is not
modelled — no claim refers to it). -/
def rescaleInt (v : ℤ) (s t : ScaleSignature) : Except QError ℤ :=
  if s.epi - t.epi = 0 then
    if ((v : ℚ) * (conversionFactor s t).rat).den = 1 then
      .ok ((v : ℚ) * (conversionFactor s t).rat).num
    else .error .PrecisionLoss
  else .error .PrecisionLoss

/-- The pure-angle dimension pattern: every axis zero except a nonzero
angle axis. -/
def DimensionSignature.isPureAngle (d : DimensionSignature) : Prop :=
  d.mass = 0 ∧ d.length = 0 ∧ d.time = 0 ∧ d.current = 0 ∧
  d.temperature = 0 ∧ d.amount = 0 ∧ d.luminosity = 0 ∧ d.angle ≠ 0

instance (d : DimensionSignature) : Decidable d.isPureAngle := by
  unfold DimensionSignature.isPureAngle
  infer_instance

/-- Result of the erasure rule: either a bare number or a partially erased
quantity. -/
inductive EraseResult where
  | num : PiRat → EraseResult
  | quant : Quantity → EraseResult
deriving DecidableEq

/-- Modelled from the spec: the erasure rule.  A dimensionless or pure-angle
quantity collapses to a bare number after applying the factor from its
scale to the canonical reference (unity, or radian for angle — both the
all-zero scale vector).  A compound signature with a nonzero angle axis has
only the angle contribution erased: the basis-pi scale component is folded
into the value as its radian-equivalent factor, and the remaining dimension
axes and non-pi residual scale stay intact.  A compound signature with no
angle axis is not erasable. -/
def eraseRule (q : Quantity) : Except QError EraseResult :=
  if q.dim = dimZero ∨ q.dim.isPureAngle then
    .ok (.num (q.value.mul (scaleFactorPi q.scale)))
  else if q.dim.angle ≠ 0 then
    .ok (.quant ⟨q.value.mul ⟨1, q.scale.epi⟩,
      ⟨q.dim.mass, q.dim.length, q.dim.time, q.dim.current,
       q.dim.temperature, q.dim.amount, q.dim.luminosity, 0⟩,
      ⟨q.scale.e2, q.scale.e3, q.scale.e5, q.scale.e10, 0⟩,
      q.affine⟩)
  else .error .DimensionMismatch

/-- Modelled from the spec: the factorization rule that canonicalizes a
scale signature — the composite basis element 10 is folded into the prime
components 2 and 5 (10 = 2 * 5), so equal physical multiples reduce to
identical vectors. -/
def ScaleSignature.reduce (s : ScaleSignature) : ScaleSignature :=
  ⟨s.e2 + s.e10, s.e3, s.e5 + s.e10, 0, s.epi⟩

/-- A scale signature is in canonical (reduced) form when its composite
basis component is zero. -/
def ScaleSignature.IsReduced (s : ScaleSignature) : Prop := s.e10 = 0

/-- The exact physical multiple a scale signature denotes: its rational
part paired with its pi exponent. -/
def ScaleSignature.denote (s : ScaleSignature) : ℚ × ℤ :=
  (s.ratFactor, s.epi)

/-- The storage scale of the millimeter relative to the meter base unit:
`10 ^ -3`. -/
def mmScale : ScaleSignature := ⟨0, 0, 0, -3, 0⟩

/-- The storage scale of the degree relative to the radian base unit:
`pi / 180 = 2^-2 * 3^-2 * 5^-1 * pi`. -/
def degScale : ScaleSignature := ⟨-2, -2, -1, 0, 1⟩

/-- The pure-length dimension. -/
def lengthDim : DimensionSignature := ⟨0, 1, 0, 0, 0, 0, 0, 0⟩

/-- The pure-temperature dimension. -/
def tempDim : DimensionSignature := ⟨0, 0, 0, 0, 1, 0, 0, 0⟩

/-- One meter, stored at the canonical base scale. -/
def meterQ : Quantity := ⟨⟨1, 0⟩, lengthDim, scaleZero, none⟩

/-- One millimeter, stored at the `10^-3` scale. -/
def mmQ : Quantity := ⟨⟨1, 0⟩, lengthDim, mmScale, none⟩

/-- One meter per second. -/
def velocityQ : Quantity := ⟨⟨1, 0⟩, ⟨0, 1, -1, 0, 0, 0, 0, 0⟩, scaleZero, none⟩

/-- One degree per meter (a curvature measured in degrees). -/
def curvatureDegQ : Quantity := ⟨⟨1, 0⟩, ⟨0, -1, 0, 0, 0, 0, 0, 1⟩, degScale, none⟩

/-- 32 degrees Fahrenheit: an affine temperature stored in the
`5/9`-of-a-kelvin scale with the Fahrenheit zero-point offset. -/
def fahrenheitQ : Quantity :=
  ⟨⟨32, 0⟩, tempDim, ⟨0, -2, 1, 0, 0⟩, some ⟨45967 / 180, scaleZero⟩⟩

/-- A dimensionless ratio with residual scale `10^3` (the quotient of one
meter by one millimeter). -/
def ratioQ : Quantity := ⟨⟨1, 0⟩, dimZero, ⟨0, 0, 0, 3, 0⟩, none⟩

/-- Result of the VS Code extension's `expandUnitMacro`, as observed by its
tests: a success flag, an optional expanded type, and an optional error
message. -/
structure ExpansionResult where
  success : Bool
  expandedType : Option String
  errMsg : Option String
deriving DecidableEq

/-- The characters of the literal `unit!`. -/
def unitKw : List Char := "unit!".data

/-- The rejection message of `expandUnitMacro`. -/
def notStartErrStr : String := "Text does not start with unit!"

/-- Modelled from the spec: the input guard of
`MacroExpander.expandUnitMacro` (`vscode-extension/src/macro-expander.ts`,
absent from the sources; behavior fixed by the assertions of
`macro-expander.test.ts`).  Input text that does not start with `unit!` is
rejected with success `false` and the exact error message, without
attempting expansion; `none` below stands for proceeding to the external
rustc-driven expansion, which is out of scope.  The JS string is modelled
as its character list. -/
def expandUnitMacroGuard (text : List Char) : Option ExpansionResult :=
  if unitKw.isPrefixOf text then none
  else some ⟨false, none, some notStartErrStr⟩

/-- Character class `[A-Za-z_]` of the alias-name regular expression. -/
def identStartChar (c : Char) : Bool :=
  decide ('A' ≤ c ∧ c ≤ 'Z') || decide ('a' ≤ c ∧ c ≤ 'z') || decide (c = '_')

/-- Character class `[A-Za-z0-9_]` of the alias-name regular expression. -/
def identContChar (c : Char) : Bool :=
  identStartChar c || decide ('0' ≤ c ∧ c ≤ '9')

/-- Whether a whole string (as a character list) matches
`^[A-Za-z_][A-Za-z0-9_]*$`: nonempty, first character in `[A-Za-z_]`, every
further character in `[A-Za-z0-9_]`.  Without the `m` flag, ECMAScript `^`
and `$` anchor exactly at the ends of the input. -/
def matchesAliasRegex : List Char → Bool
  | [] => false
  | c :: cs => identStartChar c && cs.all identContChar

/-- First error message of the alias-name validator. -/
def errEmptyStr : String := "Alias name cannot be empty"

/-- Second error message of the alias-name validator. -/
def errIdentStr : String := "Alias name must be a valid Rust identifier"

/-- The `validateInput` callback of the generateUnitAlias command
(extension source, embedded in the test-suite file).  The JS test
`!value || value.trim() === ''` holds exactly when every character of the
string is whitespace (an empty string included), which is how it is
rendered here; then a failed regex test yields the identifier error, and a
match yields `null` (here `none`). -/
def validateInput (value : List Char) : Option String :=
  if value.all Char.isWhitespace then some errEmptyStr
  else if !matchesAliasRegex value then some errIdentStr
  else none

/-- A zero-based (line, character) position, as in the VS Code API. -/
structure Position where
  line : Nat
  character : Nat
deriving DecidableEq

/-- Characters of `"fn "`. -/
def fnKw : List Char := "fn ".data

/-- Characters of `"pub fn "`. -/
def pubFnKw : List Char := "pub fn ".data

/-- Characters of `"struct "`. -/
def structKw : List Char := "struct ".data

/-- Characters of `"enum "`. -/
def enumKw : List Char := "enum ".data

/-- Characters of `"pub struct "`. -/
def pubStructKw : List Char := "pub struct ".data

/-- Characters of `"pub enum "`. -/
def pubEnumKw : List Char := "pub enum ".data

/-- Characters of `"mod "`. -/
def modKw : List Char := "mod ".data

/-- Characters of `"pub mod "`. -/
def pubModKw : List Char := "pub mod ".data

/-- The JS `trim()` on a character list: leading and trailing whitespace
removed. -/
def trimChars (l : List Char) : List Char :=
  ((l.dropWhile Char.isWhitespace).reverse.dropWhile Char.isWhitespace).reverse

/-- A trimmed line that starts a function declaration (`fn` or `pub fn`). -/
def isFnLine (l : List Char) : Bool :=
  fnKw.isPrefixOf l || pubFnKw.isPrefixOf l

/-- A trimmed line that starts a struct or enum declaration. -/
def isTypeLine (l : List Char) : Bool :=
  structKw.isPrefixOf l || enumKw.isPrefixOf l ||
  pubStructKw.isPrefixOf l || pubEnumKw.isPrefixOf l

/-- A trimmed line that starts a module declaration (`mod` or `pub mod`). -/
def isModLine (l : List Char) : Bool :=
  modKw.isPrefixOf l || pubModKw.isPrefixOf l

/-- The trimmed text of line `i` of the document.  The document is modelled
as its list of lines (the source computes it as `text.split('\n')`); a
line index past the end yields the empty line. -/
def lineAt (lines : List (List Char)) (i : Nat) : List Char :=
  trimChars (lines.getD i [])

/-- One step of `findBestInsertPosition`'s backward scan: a function,
struct, or enum declaration line yields the position at that line's start; a
module declaration line yields the start of the following line; any other
line yields nothing. -/
def checkDeclLine (l : List Char) (i : Nat) : Option Position :=
  if isFnLine l || isTypeLine l then some ⟨i, 0⟩
  else if isModLine l then some ⟨i + 1, 0⟩
  else none

/-- The backward scan of `findBestInsertPosition`: from line `n` down to
line 0, stopping at the first declaration line; falls through to the top of
the file. -/
def findFromLine (lines : List (List Char)) : Nat → Position
  | 0 => (checkDeclLine (lineAt lines 0) 0).getD ⟨0, 0⟩
  | n + 1 => (checkDeclLine (lineAt lines (n + 1)) (n + 1)).getD (findFromLine lines n)

/-- The `findBestInsertPosition` helper of the extension source (embedded
in the test-suite file): scan backwards from the cursor line for a
declaration line, inserting before functions/structs/enums, after modules,
and at the top of the file as a last resort. -/
def findBestInsertPosition (lines : List (List Char)) (cur : Position) : Position :=
  findFromLine lines cur.line

/-- Whether line `i` (trimmed) is any declaration line recognized by the
scan. -/
def isDeclLine (lines : List (List Char)) (i : Nat) : Bool :=
  isFnLine (lineAt lines i) || isTypeLine (lineAt lines i) || isModLine (lineAt lines i)

/-- The greatest declaration line at or before line `n`, if any. -/
def lastDeclAtOrBefore (lines : List (List Char)) : Nat → Option Nat
  | 0 => if isDeclLine lines 0 then some 0 else none
  | n + 1 => if isDeclLine lines (n + 1) then some (n + 1) else lastDeclAtOrBefore lines n

/-- Restatement of the claim's description of `findBestInsertPosition`, to
be compared with the embedded code: take the first declaration line found
scanning backwards from the cursor; return its own start for a function,
struct, or enum declaration, the start of the next line for a module
declaration, and the top of the file when no declaration line exists at or
before the cursor. -/
def findBestInsertPositionSpec (lines : List (List Char)) (cur : Position) : Position :=
  match lastDeclAtOrBefore lines cur.line with
  | none => ⟨0, 0⟩
  | some j =>
      if isFnLine (lineAt lines j) || isTypeLine (lineAt lines j) then ⟨j, 0⟩
      else ⟨j + 1, 0⟩

/-- A three-line sample document: a module line, a function line, a body
line. -/
def sampleDoc : List (List Char) :=
  ["mod a;".data, "fn main() \x7b\x7d".data, "let x = 1;".data]

/-- Curvature times velocity: one degree per second. -/
def cvQ : Quantity := ⟨⟨1, 0⟩, ⟨0, 0, -1, 0, 0, 0, 0, 1⟩, degScale, none⟩

/-- Curvature times velocity squared: one degree-meter per second squared. -/
def cvvQ : Quantity := ⟨⟨1, 0⟩, ⟨0, 1, -2, 0, 0, 0, 0, 1⟩, degScale, none⟩

/-- The angularly erased form of `cvvQ`: value `pi`, acceleration
dimension, residual scale `1/180`. -/
def cvvErasedQ : Quantity := ⟨⟨1, 1⟩, ⟨0, 1, -2, 0, 0, 0, 0, 0⟩, ⟨-2, -2, -1, 0, 0⟩, none⟩

/-- Characters of the invalid macro input used by the extension tests. -/
def notAMacroChars : List Char := "not_a_macro".data

/-- Characters of a well-formed alias name. -/
def distanceChars : List Char := "Distance".data

theorem ratFactor_pos (s : ScaleSignature) : 0 < s.ratFactor := by
  unfold ScaleSignature.ratFactor
  positivity

theorem ratFactor_ne_zero (s : ScaleSignature) : s.ratFactor ≠ 0 :=
  ne_of_gt (ratFactor_pos s)

instance fact_prime_five : Fact (Nat.Prime 5) := ⟨by norm_num⟩

theorem padicValRat_zpow (p : ℕ) [Fact p.Prime] {q : ℚ} (hq : q ≠ 0) (z : ℤ) :
    padicValRat p (q ^ z) = z * padicValRat p q := by
  cases z with
  | ofNat n =>
      rw [Int.ofNat_eq_coe, zpow_natCast, padicValRat.pow hq]
  | negSucc n =>
      rw [zpow_negSucc, padicValRat.inv, padicValRat.pow hq, Int.negSucc_eq]
      push_cast
      ring

theorem padicValRat_prime_not_dvd {p q : ℕ} [Fact p.Prime] (h : ¬ p ∣ q) :
    padicValRat p ((q : ℕ) : ℚ) = 0 := by
  rw [padicValRat.of_nat, padicValNat.eq_zero_of_not_dvd h]
  simp

theorem padicVal_factor (p : ℕ) [Fact p.Prime] (a b c : ℤ) :
    padicValRat p ((2 : ℚ) ^ a * (3 : ℚ) ^ b * (5 : ℚ) ^ c) =
      a * padicValRat p 2 + b * padicValRat p 3 + c * padicValRat p 5 := by
  have h2 : (2 : ℚ) ≠ 0 := by norm_num
  have h3 : (3 : ℚ) ≠ 0 := by norm_num
  have h5 : (5 : ℚ) ≠ 0 := by norm_num
  rw [padicValRat.mul (mul_ne_zero (zpow_ne_zero _ h2) (zpow_ne_zero _ h3)) (zpow_ne_zero _ h5),
      padicValRat.mul (zpow_ne_zero _ h2) (zpow_ne_zero _ h3),
      padicValRat_zpow p h2, padicValRat_zpow p h3, padicValRat_zpow p h5]

theorem prime_factor_inj {a b c a2 b2 c2 : ℤ}
    (h : (2 : ℚ) ^ a * (3 : ℚ) ^ b * (5 : ℚ) ^ c = (2 : ℚ) ^ a2 * (3 : ℚ) ^ b2 * (5 : ℚ) ^ c2) :
    a = a2 ∧ b = b2 ∧ c = c2 := by
  have v22 : padicValRat 2 2 = 1 := by
    simpa using padicValRat.self (p := 2) (by norm_num)
  have v33 : padicValRat 3 3 = 1 := by
    simpa using padicValRat.self (p := 3) (by norm_num)
  have v55 : padicValRat 5 5 = 1 := by
    simpa using padicValRat.self (p := 5) (by norm_num)
  have v23 : padicValRat 2 3 = 0 := by
    simpa using padicValRat_prime_not_dvd (p := 2) (q := 3) (by decide)
  have v25 : padicValRat 2 5 = 0 := by
    simpa using padicValRat_prime_not_dvd (p := 2) (q := 5) (by decide)
  have v32 : padicValRat 3 2 = 0 := by
    simpa using padicValRat_prime_not_dvd (p := 3) (q := 2) (by decide)
  have v35 : padicValRat 3 5 = 0 := by
    simpa using padicValRat_prime_not_dvd (p := 3) (q := 5) (by decide)
  have v52 : padicValRat 5 2 = 0 := by
    simpa using padicValRat_prime_not_dvd (p := 5) (q := 2) (by decide)
  have v53 : padicValRat 5 3 = 0 := by
    simpa using padicValRat_prime_not_dvd (p := 5) (q := 3) (by decide)
  have e2 := congrArg (padicValRat 2) h
  have e3 := congrArg (padicValRat 3) h
  have e5 := congrArg (padicValRat 5) h
  rw [padicVal_factor 2, padicVal_factor 2, v22, v23, v25] at e2
  rw [padicVal_factor 3, padicVal_factor 3, v32, v33, v35] at e3
  rw [padicVal_factor 5, padicVal_factor 5, v52, v53, v55] at e5
  refine ⟨?_, ?_, ?_⟩ <;> omega

theorem ratFactor_inj_reduced {s1 s2 : ScaleSignature}
    (h1 : s1.IsReduced) (h2 : s2.IsReduced) (h : s1.ratFactor = s2.ratFactor) :
    s1.e2 = s2.e2 ∧ s1.e3 = s2.e3 ∧ s1.e5 = s2.e5 := by
  unfold ScaleSignature.IsReduced at h1 h2
  unfold ScaleSignature.ratFactor at h
  rw [h1, h2] at h
  simp only [zpow_zero, mul_one] at h
  exact prime_factor_inj h

/-- C1: whenever multiplication of two quantities is legal, the result's
DimensionSignature is the axis-wise sum of the operands' DimensionSignatures
and its ScaleSignature the axis-wise sum of their ScaleSignatures; division
subtracts both exponent vectors axis-wise, and integer power `n`
scalar-multiplies every exponent by `n`. -/
theorem combination_signature_arithmetic :
    (∀ q1 q2 r : Quantity, Quantity.mul q1 q2 = Except.ok r →
        r.dim = q1.dim.add q2.dim ∧ r.scale = q1.scale.add q2.scale) ∧
    (∀ q1 q2 r : Quantity, Quantity.div q1 q2 = Except.ok r →
        r.dim = q1.dim.sub q2.dim ∧ r.scale = q1.scale.sub q2.scale) ∧
    (∀ (q : Quantity) (n : ℤ) (r : Quantity), Quantity.qpow q n = Except.ok r →
        r.dim = DimensionSignature.smul n q.dim ∧ r.scale = ScaleSignature.smul n q.scale) := by
  refine ⟨?_, ?_, ?_⟩
  · intro q1 q2 r h
    unfold Quantity.mul at h
    by_cases ha : (q1.affine.isSome || q2.affine.isSome) = true
    · rw [if_pos ha] at h
      exact (Except.noConfusion h)
    · rw [if_neg ha] at h
      by_cases hb : (q1.dim.add q2.dim).inBounds ∧ (q1.scale.add q2.scale).inBounds
      · rw [if_pos hb] at h
        simp only [Except.ok.injEq] at h
        subst h
        exact ⟨rfl, rfl⟩
      · rw [if_neg hb] at h
        exact (Except.noConfusion h)
  · intro q1 q2 r h
    unfold Quantity.div at h
    by_cases ha : (q1.affine.isSome || q2.affine.isSome) = true
    · rw [if_pos ha] at h
      exact (Except.noConfusion h)
    · rw [if_neg ha] at h
      by_cases hb : (q1.dim.sub q2.dim).inBounds ∧ (q1.scale.sub q2.scale).inBounds
      · rw [if_pos hb] at h
        simp only [Except.ok.injEq] at h
        subst h
        exact ⟨rfl, rfl⟩
      · rw [if_neg hb] at h
        exact (Except.noConfusion h)
  · intro q n r h
    unfold Quantity.qpow at h
    by_cases ha : q.affine.isSome = true
    · rw [if_pos ha] at h
      exact (Except.noConfusion h)
    · rw [if_neg ha] at h
      by_cases hb : (DimensionSignature.smul n q.dim).inBounds ∧ (ScaleSignature.smul n q.scale).inBounds
      · rw [if_pos hb] at h
        simp only [Except.ok.injEq] at h
        subst h
        exact ⟨rfl, rfl⟩
      · rw [if_neg hb] at h
        exact (Except.noConfusion h)

/-- Witness for C1: the meter times the millimeter, the meter divided by
the millimeter, and the meter squared, each evaluated concretely. -/
theorem combination_signature_arithmetic_witness :
    (Quantity.mul meterQ mmQ =
        Except.ok ⟨PiRat.mul meterQ.value mmQ.value, meterQ.dim.add mmQ.dim,
          meterQ.scale.add mmQ.scale, none⟩ ∧
      meterQ.dim.add mmQ.dim = (⟨0, 2, 0, 0, 0, 0, 0, 0⟩ : DimensionSignature) ∧
      meterQ.scale.add mmQ.scale = (⟨0, 0, 0, -3, 0⟩ : ScaleSignature)) ∧
    (Quantity.div meterQ mmQ =
        Except.ok ⟨PiRat.div meterQ.value mmQ.value, meterQ.dim.sub mmQ.dim,
          meterQ.scale.sub mmQ.scale, none⟩ ∧
      (⟨PiRat.div meterQ.value mmQ.value, meterQ.dim.sub mmQ.dim,
          meterQ.scale.sub mmQ.scale, none⟩ : Quantity).dim = meterQ.dim.sub mmQ.dim) ∧
    (Quantity.qpow meterQ 2 =
        Except.ok ⟨PiRat.ipow meterQ.value 2, DimensionSignature.smul 2 meterQ.dim,
          ScaleSignature.smul 2 meterQ.scale, none⟩ ∧
      (⟨PiRat.ipow meterQ.value 2, DimensionSignature.smul 2 meterQ.dim,
          ScaleSignature.smul 2 meterQ.scale, none⟩ : Quantity).scale =
        ScaleSignature.smul 2 meterQ.scale) := by
  have hm : Quantity.mul meterQ mmQ =
      Except.ok ⟨PiRat.mul meterQ.value mmQ.value, meterQ.dim.add mmQ.dim,
        meterQ.scale.add mmQ.scale, none⟩ := by
    unfold Quantity.mul
    rw [if_neg (by decide), if_pos (by decide)]
  have hd : Quantity.div meterQ mmQ =
      Except.ok ⟨PiRat.div meterQ.value mmQ.value, meterQ.dim.sub mmQ.dim,
        meterQ.scale.sub mmQ.scale, none⟩ := by
    unfold Quantity.div
    rw [if_neg (by decide), if_pos (by decide)]
  have hp : Quantity.qpow meterQ 2 =
      Except.ok ⟨PiRat.ipow meterQ.value 2, DimensionSignature.smul 2 meterQ.dim,
        ScaleSignature.smul 2 meterQ.scale, none⟩ := by
    unfold Quantity.qpow
    rw [if_neg (by decide), if_pos (by decide)]
  refine ⟨⟨hm, by decide, by decide⟩, ⟨hd, ?_⟩, ⟨hp, ?_⟩⟩
  · exact (combination_signature_arithmetic.2.1 meterQ mmQ _ hd).1
  · exact (combination_signature_arithmetic.2.2 meterQ 2 _ hp).2

/-- C7: a multiplication or division in which either operand carries an
AffineOffset fails with AffineCombinationInvalid; no such multiply or
divide ever succeeds. -/
theorem affine_mul_div_rejected :
    ∀ q1 q2 : Quantity, (q1.affine.isSome = true ∨ q2.affine.isSome = true) →
      Quantity.mul q1 q2 = Except.error QError.AffineCombinationInvalid ∧
      Quantity.div q1 q2 = Except.error QError.AffineCombinationInvalid := by
  intro q1 q2 h
  have hb : (q1.affine.isSome || q2.affine.isSome) = true := by
    rcases h with h | h <;> simp [h]
  constructor
  · unfold Quantity.mul
    rw [if_pos hb]
  · unfold Quantity.div
    rw [if_pos hb]

/-- Witness for C7: 32 degrees Fahrenheit (affine) times and divided by a
plain meter, and the dimensionless ratio 1000 times Fahrenheit. -/
theorem affine_mul_div_rejected_witness :
    (Quantity.mul fahrenheitQ meterQ = Except.error QError.AffineCombinationInvalid ∧
      Quantity.div fahrenheitQ meterQ = Except.error QError.AffineCombinationInvalid) ∧
    (Quantity.mul ratioQ fahrenheitQ = Except.error QError.AffineCombinationInvalid ∧
      Quantity.div ratioQ fahrenheitQ = Except.error QError.AffineCombinationInvalid) :=
  ⟨affine_mul_div_rejected fahrenheitQ meterQ (Or.inl (by decide)),
   affine_mul_div_rejected ratioQ fahrenheitQ (Or.inr (by decide))⟩

/-- C3: under the strict (default) policy, addition of two linear
quantities succeeds exactly when their DimensionSignatures and
ScaleSignatures are both equal, in which case the result carries both
signatures unchanged; equal dimensions with unequal scales fail with
ScaleIncoherence instead of converting implicitly. -/
theorem strict_add_coherence :
    ∀ q1 q2 : Quantity, q1.affine = none → q2.affine = none →
      ((∃ r, addStrict q1 q2 = Except.ok r) ↔ (q1.dim = q2.dim ∧ q1.scale = q2.scale)) ∧
      (∀ r, addStrict q1 q2 = Except.ok r →
        r.dim = q1.dim ∧ r.scale = q1.scale ∧ r.dim = q2.dim ∧ r.scale = q2.scale) ∧
      (q1.dim = q2.dim → q1.scale ≠ q2.scale →
        addStrict q1 q2 = Except.error QError.ScaleIncoherence) := by
  intro q1 q2 h1 h2
  simp only [addStrict, h1, h2]
  by_cases hd : q1.dim = q2.dim
  · by_cases hs : q1.scale = q2.scale
    · simp only [if_pos hd, if_pos hs]
      refine ⟨⟨fun _ => ⟨hd, hs⟩, fun _ => ⟨_, rfl⟩⟩, ?_, ?_⟩
      · intro r hr
        simp only [Except.ok.injEq] at hr
        subst hr
        exact ⟨rfl, rfl, hd, hs⟩
      · intro _ hne
        exact absurd hs hne
    · simp only [if_pos hd, if_neg hs]
      refine ⟨⟨?_, ?_⟩, ?_, ?_⟩
      · rintro ⟨r, hr⟩
        exact (Except.noConfusion hr)
      · rintro ⟨_, hsc⟩
        exact absurd hsc hs
      · intro r hr
        exact (Except.noConfusion hr)
      · intro _ _
        trivial
  · simp only [if_neg hd]
    refine ⟨⟨?_, ?_⟩, ?_, ?_⟩
    · rintro ⟨r, hr⟩
      exact (Except.noConfusion hr)
    · rintro ⟨hdd, _⟩
      exact absurd hdd hd
    · intro r hr
      exact (Except.noConfusion hr)
    · intro hdd _
      exact absurd hdd hd

/-- Witness for C3: one meter plus one meter succeeds, while one meter plus
one millimeter (equal dimension, different scale) fails with
ScaleIncoherence. -/
theorem strict_add_coherence_witness :
    (∃ r, addStrict meterQ meterQ = Except.ok r) ∧
    addStrict meterQ mmQ = Except.error QError.ScaleIncoherence :=
  ⟨((strict_add_coherence meterQ meterQ rfl rfl).1).2 ⟨rfl, rfl⟩,
   (strict_add_coherence meterQ mmQ rfl rfl).2.2 rfl (by decide)⟩

/-- C4: rescaling a quantity to a target scale of its dimension and back to
its original scale restores it exactly — unconditionally in the exact value
model (so a floating realization is exact up to rounding of the two
multiplications), and bit-identically for integer storage whenever the
forward conversion is representable at all. -/
theorem rescale_round_trip :
    (∀ (q : Quantity) (A : ScaleSignature), rescale (rescale q A) q.scale = q) ∧
    (∀ (v : ℤ) (s A : ScaleSignature) (w : ℤ),
      rescaleInt v s A = Except.ok w → rescaleInt w A s = Except.ok v) := by
  constructor
  · intro q A
    obtain ⟨⟨vr, vk⟩, d, s, a⟩ := q
    simp only [rescale, conversionFactor, PiRat.mul, Quantity.mk.injEq, PiRat.mk.injEq]
    refine ⟨⟨?_, by ring⟩, trivial, trivial, trivial⟩
    have hA := ratFactor_ne_zero A
    have hs := ratFactor_ne_zero s
    field_simp
  · intro v s A w h
    unfold rescaleInt at h ⊢
    by_cases he : s.epi - A.epi = 0
    · rw [if_pos he] at h
      by_cases hd : (((v : ℤ) : ℚ) * (conversionFactor s A).rat).den = 1
      · rw [if_pos hd] at h
        simp only [Except.ok.injEq] at h
        have hw : ((w : ℤ) : ℚ) = ((v : ℤ) : ℚ) * (conversionFactor s A).rat := by
          rw [← h]
          have hnd := Rat.num_div_den (((v : ℤ) : ℚ) * (conversionFactor s A).rat)
          rw [hd] at hnd
          simpa using hnd
        have key : ((w : ℤ) : ℚ) * (conversionFactor A s).rat = ((v : ℤ) : ℚ) := by
          rw [hw]
          simp only [conversionFactor]
          have hA := ratFactor_ne_zero A
          have hs := ratFactor_ne_zero s
          field_simp
        rw [if_pos (by omega), key, if_pos (Rat.den_intCast v), Rat.num_intCast]
      · rw [if_neg hd] at h
        exact (Except.noConfusion h)
    · rw [if_neg he] at h
      exact (Except.noConfusion h)

/-- Witness for C4: one meter rescaled to millimeters and back, and the
integer value 5 converted from the meter scale to the millimeter scale
(becoming 5000) and back (recovering 5). -/
theorem rescale_round_trip_witness :
    rescale (rescale meterQ mmScale) meterQ.scale = meterQ ∧
    rescaleInt 5 scaleZero mmScale = Except.ok 5000 ∧
    rescaleInt 5000 mmScale scaleZero = Except.ok 5 := by
  have hval : ((5 : ℤ) : ℚ) * (conversionFactor scaleZero mmScale).rat = ((5000 : ℤ) : ℚ) := by
    norm_num [conversionFactor, ScaleSignature.ratFactor, scaleZero, mmScale]
  have h : rescaleInt 5 scaleZero mmScale = Except.ok 5000 := by
    unfold rescaleInt
    rw [if_pos (by decide), hval, if_pos (Rat.den_intCast 5000), Rat.num_intCast]
  exact ⟨rescale_round_trip.1 meterQ mmScale, h,
    rescale_round_trip.2 5 scaleZero mmScale 5000 h⟩

/-- C2: on canonical (reduced) scale signatures, denoting the same physical
multiple is equivalent to being exactly the same exponent vector — scale
equality is exact vector equality, never numeric proximity; the
factorization rule canonicalizes every signature without changing the
multiple it denotes, and it commutes with every combination operation, so
uniqueness is preserved by arithmetic. -/
theorem scale_signature_uniqueness :
    (∀ s1 s2 : ScaleSignature, s1.IsReduced → s2.IsReduced →
        (s1.denote = s2.denote ↔ s1 = s2)) ∧
    (∀ s : ScaleSignature, s.reduce.IsReduced ∧ s.reduce.denote = s.denote) ∧
    (∀ s1 s2 : ScaleSignature,
        (s1.add s2).reduce = s1.reduce.add s2.reduce ∧
        (s1.sub s2).reduce = s1.reduce.sub s2.reduce) ∧
    (∀ (n : ℤ) (s : ScaleSignature),
        (ScaleSignature.smul n s).reduce = ScaleSignature.smul n s.reduce) := by
  refine ⟨?_, ?_, ?_, ?_⟩
  · intro s1 s2 h1 h2
    constructor
    · intro h
      unfold ScaleSignature.denote at h
      rw [Prod.mk.injEq] at h
      obtain ⟨hr, he⟩ := h
      obtain ⟨ha, hb, hc⟩ := ratFactor_inj_reduced h1 h2 hr
      unfold ScaleSignature.IsReduced at h1 h2
      cases s1
      cases s2
      simp only at ha hb hc he h1 h2
      subst h1
      subst h2
      rw [ScaleSignature.mk.injEq]
      exact ⟨ha, hb, hc, rfl, he⟩
    · intro h
      rw [h]
  · intro s
    refine ⟨rfl, ?_⟩
    unfold ScaleSignature.denote ScaleSignature.reduce ScaleSignature.ratFactor
    rw [Prod.mk.injEq]
    refine ⟨?_, rfl⟩
    have h2 : (2 : ℚ) ≠ 0 := by norm_num
    have h5 : (5 : ℚ) ≠ 0 := by norm_num
    have h10 : (10 : ℚ) = 2 * 5 := by norm_num
    simp only [zpow_zero, mul_one, zpow_add₀ h2, zpow_add₀ h5]
    rw [h10, mul_zpow]
    ring
  · intro s1 s2
    constructor <;>
      · simp only [ScaleSignature.reduce, ScaleSignature.add, ScaleSignature.sub]
        congr 1 <;> ring
  · intro n s
    simp only [ScaleSignature.reduce, ScaleSignature.smul]
    congr 1 <;> ring

/-- Witness for C2: the factor 1000 constructed through the composite
basis element (`10^3`, then canonicalized) and directly through the prime
components (`2^3 * 5^3`) yields the same reduced vector, and the
equivalence applies to it concretely. -/
theorem scale_signature_uniqueness_witness :
    ((ScaleSignature.mk 0 0 0 3 0).reduce.denote = (ScaleSignature.mk 3 0 3 0 0).denote ↔
      (ScaleSignature.mk 0 0 0 3 0).reduce = ScaleSignature.mk 3 0 3 0 0) ∧
    (ScaleSignature.mk 0 0 0 3 0).reduce = ScaleSignature.mk 3 0 3 0 0 :=
  ⟨scale_signature_uniqueness.1 (ScaleSignature.mk 0 0 0 3 0).reduce
      (ScaleSignature.mk 3 0 3 0 0) rfl rfl,
   by decide⟩

/-- C5: erasing a dimensionless quantity yields its value multiplied by the
exact factor its ScaleSignature denotes relative to unity; in particular
the quotient of one meter by one millimeter erases to exactly 1000. -/
theorem erase_dimensionless_value :
    (∀ q : Quantity, q.dim = dimZero →
        eraseRule q = Except.ok (EraseResult.num (q.value.mul (scaleFactorPi q.scale)))) ∧
    (Quantity.div meterQ mmQ).bind eraseRule =
      Except.ok (EraseResult.num ⟨1000, 0⟩) := by
  constructor
  · intro q h
    unfold eraseRule
    rw [if_pos (Or.inl h)]
  · have hd : Quantity.div meterQ mmQ =
        Except.ok ⟨⟨1, 0⟩, dimZero, ⟨0, 0, 0, 3, 0⟩, none⟩ := by
      unfold Quantity.div
      rw [if_neg (by decide), if_pos (by decide)]
      simp only [Except.ok.injEq]
      unfold meterQ mmQ lengthDim mmScale scaleZero dimZero
      simp only [PiRat.div, DimensionSignature.sub, ScaleSignature.sub,
        Quantity.mk.injEq, PiRat.mk.injEq, DimensionSignature.mk.injEq,
        ScaleSignature.mk.injEq]
      norm_num
    rw [hd]
    show eraseRule ⟨⟨1, 0⟩, dimZero, ⟨0, 0, 0, 3, 0⟩, none⟩ =
      Except.ok (EraseResult.num ⟨1000, 0⟩)
    unfold eraseRule
    rw [if_pos (Or.inl rfl)]
    simp only [Except.ok.injEq, EraseResult.num.injEq]
    simp only [PiRat.mul, scaleFactorPi, ScaleSignature.ratFactor, PiRat.mk.injEq]
    norm_num

/-- Witness for C5: the stored dimensionless ratio with residual scale
`10^3` erases to its value times the factor its scale denotes. -/
theorem erase_dimensionless_value_witness :
    eraseRule ratioQ =
      Except.ok (EraseResult.num (ratioQ.value.mul (scaleFactorPi ratioQ.scale))) :=
  erase_dimensionless_value.1 ratioQ rfl

/-- C6: erasing a compound quantity whose dimension has a nonzero angle
axis among other nonzero axes removes only the angle contribution — the
basis-pi scale component is folded into the value as its radian-equivalent
factor, while every other dimension axis and all non-pi residual scale
components are unchanged in the resulting non-angular signature.  The
README's centripetal-acceleration example evaluates accordingly: 1 deg/m
times (1 m/s) squared erases to the quantity pi with residual scale 1/180,
and rescaling to unity yields exactly pi/180 in m/s^2. -/
theorem erase_compound_angle :
    (∀ q : Quantity, q.dim.angle ≠ 0 → ¬ q.dim.isPureAngle →
        eraseRule q = Except.ok (EraseResult.quant
          ⟨q.value.mul ⟨1, q.scale.epi⟩,
           ⟨q.dim.mass, q.dim.length, q.dim.time, q.dim.current,
            q.dim.temperature, q.dim.amount, q.dim.luminosity, 0⟩,
           ⟨q.scale.e2, q.scale.e3, q.scale.e5, q.scale.e10, 0⟩,
           q.affine⟩)) ∧
    (Quantity.mul curvatureDegQ velocityQ = Except.ok cvQ ∧
      Quantity.mul cvQ velocityQ = Except.ok cvvQ ∧
      eraseRule cvvQ = Except.ok (EraseResult.quant cvvErasedQ) ∧
      rescale cvvErasedQ scaleZero =
        ⟨⟨1 / 180, 1⟩, ⟨0, 1, -2, 0, 0, 0, 0, 0⟩, scaleZero, none⟩) := by
  constructor
  · intro q ha hp
    unfold eraseRule
    have hnd : ¬ (q.dim = dimZero ∨ q.dim.isPureAngle) := by
      rintro (h | h)
      · exact ha (by rw [h]; rfl)
      · exact hp h
    rw [if_neg hnd, if_pos ha]
  · refine ⟨?_, ?_, ?_, ?_⟩
    · unfold Quantity.mul
      rw [if_neg (by decide), if_pos (by decide)]
      simp only [Except.ok.injEq]
      unfold curvatureDegQ velocityQ cvQ degScale scaleZero
      simp only [PiRat.mul, DimensionSignature.add, ScaleSignature.add,
        Quantity.mk.injEq, PiRat.mk.injEq, DimensionSignature.mk.injEq,
        ScaleSignature.mk.injEq]
      norm_num
    · unfold Quantity.mul
      rw [if_neg (by decide), if_pos (by decide)]
      simp only [Except.ok.injEq]
      unfold cvQ velocityQ cvvQ degScale scaleZero
      simp only [PiRat.mul, DimensionSignature.add, ScaleSignature.add,
        Quantity.mk.injEq, PiRat.mk.injEq, DimensionSignature.mk.injEq,
        ScaleSignature.mk.injEq]
      norm_num
    · unfold eraseRule
      rw [if_neg (by decide), if_pos (by decide)]
      simp only [Except.ok.injEq, EraseResult.quant.injEq]
      unfold cvvQ cvvErasedQ degScale
      simp only [PiRat.mul, Quantity.mk.injEq, PiRat.mk.injEq,
        DimensionSignature.mk.injEq, ScaleSignature.mk.injEq]
      norm_num
    · unfold rescale conversionFactor
      unfold cvvErasedQ scaleZero
      simp only [PiRat.mul, ScaleSignature.ratFactor, Quantity.mk.injEq,
        PiRat.mk.injEq, DimensionSignature.mk.injEq, ScaleSignature.mk.injEq]
      norm_num

/-- Witness for C6: the compound degree-meter-per-second-squared quantity,
erased concretely through the general clause. -/
theorem erase_compound_angle_witness :
    eraseRule cvvQ = Except.ok (EraseResult.quant
      ⟨cvvQ.value.mul ⟨1, cvvQ.scale.epi⟩,
       ⟨cvvQ.dim.mass, cvvQ.dim.length, cvvQ.dim.time, cvvQ.dim.current,
        cvvQ.dim.temperature, cvvQ.dim.amount, cvvQ.dim.luminosity, 0⟩,
       ⟨cvvQ.scale.e2, cvvQ.scale.e3, cvvQ.scale.e5, cvvQ.scale.e10, 0⟩,
       cvvQ.affine⟩) :=
  erase_compound_angle.1 cvvQ (by decide) (by decide)

/-- C8: every input that does not start with `unit!` — the empty string
included — is rejected by expandUnitMacro with success `false` and error
exactly "Text does not start with unit!", without attempting expansion. -/
theorem expandUnitMacroGuard_rejects :
    ∀ t : List Char, unitKw.isPrefixOf t = false →
      expandUnitMacroGuard t = some ⟨false, none, some notStartErrStr⟩ := by
  intro t h
  unfold expandUnitMacroGuard
  rw [if_neg (by simp [h])]

/-- Witness for C8: the empty input and the input `not_a_macro` used by the
extension's own tests. -/
theorem expandUnitMacroGuard_rejects_witness :
    expandUnitMacroGuard [] = some ⟨false, none, some notStartErrStr⟩ ∧
    expandUnitMacroGuard notAMacroChars = some ⟨false, none, some notStartErrStr⟩ :=
  ⟨expandUnitMacroGuard_rejects [] (by decide),
   expandUnitMacroGuard_rejects notAMacroChars (by decide)⟩

theorem identStartChar_of_whitespace {c : Char} (h : c.isWhitespace = true) :
    identStartChar c = false := by
  simp only [Char.isWhitespace, Bool.or_eq_true, decide_eq_true_eq] at h
  rcases h with ((h | h) | h) | h <;> subst h <;> decide

/-- C9: the alias-name validator returns `null` exactly when the candidate
matches `^[A-Za-z_][A-Za-z0-9_]*$`; every empty, whitespace-only, or
otherwise non-matching string is rejected with a non-null error message. -/
theorem validateInput_accepts_iff :
    ∀ v : List Char, (validateInput v = none ↔ matchesAliasRegex v = true) ∧
      (matchesAliasRegex v = false → (validateInput v).isSome = true) := by
  intro v
  have hmw : v.all Char.isWhitespace = true → matchesAliasRegex v = false := by
    intro hw
    cases v with
    | nil => rfl
    | cons c cs =>
        simp only [List.all_cons, Bool.and_eq_true] at hw
        have hc := identStartChar_of_whitespace hw.1
        simp [matchesAliasRegex, hc]
  refine ⟨⟨?_, ?_⟩, ?_⟩
  · intro h
    unfold validateInput at h
    by_cases hw : v.all Char.isWhitespace = true
    · rw [if_pos hw] at h
      exact (Option.noConfusion h)
    · rw [if_neg hw] at h
      cases hb : matchesAliasRegex v with
      | true => rfl
      | false =>
          rw [hb] at h
          simp at h
  · intro hm
    unfold validateInput
    have hw : ¬ v.all Char.isWhitespace = true := by
      intro hww
      rw [hmw hww] at hm
      exact (Bool.noConfusion hm)
    rw [if_neg hw, if_neg (by simp [hm])]
  · intro hm
    unfold validateInput
    by_cases hw : v.all Char.isWhitespace = true
    · rw [if_pos hw]
      rfl
    · rw [if_neg hw, if_pos (by simp [hm])]
      rfl

/-- Witness for C9: a valid alias name is accepted and the empty name is
rejected with an error message. -/
theorem validateInput_accepts_iff_witness :
    validateInput distanceChars = none ∧ (validateInput []).isSome = true :=
  ⟨((validateInput_accepts_iff distanceChars).1).2 (by decide),
   (validateInput_accepts_iff []).2 (by decide)⟩

theorem findFromLine_eq_spec (lines : List (List Char)) :
    ∀ n, findFromLine lines n =
      match lastDeclAtOrBefore lines n with
      | none => ⟨0, 0⟩
      | some j =>
          if isFnLine (lineAt lines j) || isTypeLine (lineAt lines j) then ⟨j, 0⟩
          else ⟨j + 1, 0⟩ := by
  intro n
  induction n with
  | zero =>
      unfold findFromLine lastDeclAtOrBefore checkDeclLine isDeclLine
      cases hA : isFnLine (lineAt lines 0) <;>
        cases hB : isTypeLine (lineAt lines 0) <;>
        cases hC : isModLine (lineAt lines 0) <;> simp [hA, hB, hC]
  | succ n ih =>
      unfold findFromLine lastDeclAtOrBefore checkDeclLine isDeclLine
      cases hA : isFnLine (lineAt lines (n + 1)) <;>
        cases hB : isTypeLine (lineAt lines (n + 1)) <;>
        cases hC : isModLine (lineAt lines (n + 1)) <;> simp [hA, hB, hC, ih]

/-- C10: for every document and every cursor position inside it,
findBestInsertPosition returns a position with character offset 0, and it
behaves as described: scanning backwards from the cursor line it returns
the first function/struct/enum declaration line itself, the line after the
first module declaration line, and the top of the file when no declaration
line exists at or before the cursor. -/
theorem findBestInsertPosition_correct :
    ∀ (lines : List (List Char)) (cur : Position), cur.line < lines.length →
      (findBestInsertPosition lines cur).character = 0 ∧
      findBestInsertPosition lines cur = findBestInsertPositionSpec lines cur := by
  intro lines cur _
  have he : findBestInsertPosition lines cur = findBestInsertPositionSpec lines cur := by
    unfold findBestInsertPosition findBestInsertPositionSpec
    exact findFromLine_eq_spec lines cur.line
  refine ⟨?_, he⟩
  rw [he]
  unfold findBestInsertPositionSpec
  cases lastDeclAtOrBefore lines cur.line with
  | none => rfl
  | some j =>
      by_cases h : (isFnLine (lineAt lines j) || isTypeLine (lineAt lines j)) = true
      · simp only [if_pos h]
      · simp only [if_neg h]

/-- Witness for C10: a three-line document (module line, function line,
body line) with the cursor on the last line; the insertion point is the
function line at character 0. -/
theorem findBestInsertPosition_correct_witness :
    ((findBestInsertPosition sampleDoc ⟨2, 5⟩).character = 0 ∧
      findBestInsertPosition sampleDoc ⟨2, 5⟩ = findBestInsertPositionSpec sampleDoc ⟨2, 5⟩) ∧
    findBestInsertPosition sampleDoc ⟨2, 5⟩ = ⟨1, 0⟩ :=
  ⟨findBestInsertPosition_correct sampleDoc ⟨2, 5⟩ (by decide), by decide⟩
